import Mathlib

set_option maxRecDepth 8192

/-!
Verification of the prompt-builder document model, output compiler, debounced
recomputation pipeline and XML serializer of the `promptbuilder` repository.
The definitions below are shallow embeddings of the script section of the
full-featured `App.vue` component (the variant with save/open, drag reorder and
debounced output).  Reactive `ref`s become fields of an explicit state record,
DOM/timer callbacks become explicit operations, and the browser `DOMParser`
(an external capability, not code of the repository) is modelled for the XML
subset the serializer emits.
-/

namespace PromptBuilder

/-- The `interface Attachment` of `App.vue`: id, display name and text content. -/
structure Attachment where
  id : String
  name : String
  content : String
deriving DecidableEq

/-- The reactive document state of `App.vue`: the refs `promptText`,
`attachments`, `selectedAttachmentId`, `attachmentName`, `attachmentContent`. -/
structure AppState where
  promptText : String
  attachments : List Attachment
  selectedAttachmentId : Option String
  attachmentName : String
  attachmentContent : String
deriving DecidableEq

/-- The state at application start: every ref is initialised empty / null. -/
def initialState : AppState :=
  { promptText := "", attachments := [], selectedAttachmentId := none,
    attachmentName := "", attachmentContent := "" }

/-- JavaScript `Array.prototype.findIndex`, with the missing case as `none`
instead of `-1`. -/
def findIndexJS (p : α → Bool) : List α → Option Nat
  | [] => none
  | a :: l => if p a then some 0 else (findIndexJS p l).map (· + 1)

/-- The compiled markdown output: body of the `updateDebouncedOutput` callback
(identical to the `outputMarkdown` computed property of the simpler variant):
start from the prompt plus a blank line and append one section per attachment. -/
def outputMarkdown (promptText : String) (attachments : List Attachment) : String :=
  let output := promptText ++ "\n\n"
  if attachments.length > 0 then
    attachments.foldl
      (fun out a => out ++ ("### " ++ a.name ++ "\n```\n" ++ a.content ++ "\n```\n\n"))
      output
  else
    output

/-- The output format as the specification words it: the prompt followed by
exactly two newlines, then for each attachment in order a level-3 heading with
its name and a fenced block with its content.  Stated from the spec, to be
compared with `outputMarkdown`. -/
def compileSpec (p : String) (atts : List Attachment) : String :=
  p ++ "\n\n" ++
    String.join (atts.map
      (fun a => "### " ++ a.name ++ "\n```\n" ++ a.content ++ "\n```\n\n"))

/-- `selectAttachment` of `App.vue`: select only when the id is found, and load
the attachment's content into the editing textarea ref. -/
def selectAttachment (st : AppState) (id : String) : AppState :=
  match st.attachments.find? (fun a => a.id == id) with
  | some a => { st with selectedAttachmentId := some id, attachmentContent := a.content }
  | none => st

/-- JavaScript `String.prototype.trim`: strip leading and trailing whitespace
(modelled over space, tab, carriage return and newline). -/
def trimJS (s : String) : String :=
  String.mk (((s.data.dropWhile Char.isWhitespace).reverse.dropWhile Char.isWhitespace).reverse)

/-- The in-place update `attachments.value[index].name = n`. -/
def updateNameAt : List Attachment → Nat → String → List Attachment
  | [], _, _ => []
  | a :: l, 0, n => { a with name := n } :: l
  | a :: l, i + 1, n => a :: updateNameAt l i n

/-- `saveAttachmentName` of `App.vue`, run with `editingAttachmentId = some id`
and `editingAttachmentName = newName` (the two transient editing refs are passed
as arguments): look the id up, and only when the trimmed new name is non-empty
store the trimmed name. -/
def saveAttachmentName (st : AppState) (id newName : String) : AppState :=
  match findIndexJS (fun a => a.id == id) st.attachments with
  | some i =>
      if trimJS newName ≠ "" then
        { st with attachments := updateNameAt st.attachments i (trimJS newName) }
      else st
  | none => st

/-- `deleteAttachment` of `App.vue`: filter the id out and, when the deleted
attachment was the selected one, clear the selection and the editing refs. -/
def deleteAttachment (st : AppState) (id : String) : AppState :=
  let atts := st.attachments.filter (fun a => a.id != id)
  if st.selectedAttachmentId = some id then
    { st with
      attachments := atts, selectedAttachmentId := none,
      attachmentName := "", attachmentContent := "" }
  else
    { st with attachments := atts }

/-- `addEmptyAttachment` of `App.vue`: push a fresh empty attachment named
`Untitled_<count+1>` and select it.  The generated id (`Date.now()` plus a
random suffix in the source) is supplied as an argument. -/
def addEmptyAttachment (st : AppState) (id : String) : AppState :=
  let name := "Untitled_" ++ toString (st.attachments.length + 1)
  let st' := { st with attachments := st.attachments ++ [⟨id, name, ""⟩] }
  selectAttachment st' id

/-- `addFromClipboard` of `App.vue` after a successful clipboard read of
`text`: push a new attachment only when the text is non-empty. -/
def addFromClipboard (st : AppState) (id text : String) : AppState :=
  if text ≠ "" then
    { st with attachments :=
        st.attachments ++ [⟨id, "Untitled_" ++ toString (st.attachments.length + 1), text⟩] }
  else st

/-- The document-model commands quantified over by the selection invariant:
add (empty or from clipboard), rename, select and delete. -/
inductive DocOp where
  | addEmpty (id : String)
  | addPaste (id text : String)
  | rename (id newName : String)
  | select (id : String)
  | delete (id : String)

/-- Interpretation of one command on the document state. -/
def applyOp (st : AppState) : DocOp → AppState
  | .addEmpty id => addEmptyAttachment st id
  | .addPaste id text => addFromClipboard st id text
  | .rename id newName => saveAttachmentName st id newName
  | .select id => selectAttachment st id
  | .delete id => deleteAttachment st id

/-- Interpretation of a command sequence, left to right. -/
def applyOps (st : AppState) (ops : List DocOp) : AppState :=
  ops.foldl applyOp st

/-- The selection invariant: `selectedAttachmentId` is null or the id of an
attachment currently in the sequence. -/
def selectionOK (st : AppState) : Bool :=
  st.selectedAttachmentId.all (fun id => st.attachments.any (fun a => a.id == id))

/-! ### Debounced recomputation

The component debounces `updateDebouncedOutput` (500 ms): every change to
`promptText` or `attachments` clears `isOutputStable` and re-arms the single
timer; when the timer fires it compiles the current state, stores it in
`debouncedOutputMarkdown` and sets `isOutputStable` again.  We model virtual
time explicitly: `pendingFire` is the absolute time of the armed timer (if
any), and `recomputes` logs every executed recompute as (time, value). -/

/-- State of the debounced output pipeline of `App.vue`. -/
structure DebounceState where
  promptText : String
  attachments : List Attachment
  debouncedOutputMarkdown : String
  isOutputStable : Bool
  pendingFire : Option Nat
  recomputes : List (Nat × String)
deriving DecidableEq

/-- Initial pipeline state: empty document, empty debounced output, stable,
no timer armed, nothing recomputed yet. -/
def initDebounce : DebounceState :=
  { promptText := "", attachments := [], debouncedOutputMarkdown := "",
    isOutputStable := true, pendingFire := none, recomputes := [] }

/-- The armed timer's callback (the body of `updateDebouncedOutput` handed to
`setTimeout`), executed at its scheduled time `now`: compile the current state,
publish it and mark the output stable. -/
def fireTimer (s : DebounceState) (now : Nat) : DebounceState :=
  { s with
    debouncedOutputMarkdown := outputMarkdown s.promptText s.attachments,
    isOutputStable := true, pendingFire := none,
    recomputes := s.recomputes ++ [(now, outputMarkdown s.promptText s.attachments)] }

/-- On the single event-loop thread a timer due at or before the present
instant runs before the next user event is handled. -/
def runDueTimer (s : DebounceState) (now : Nat) : DebounceState :=
  match s.pendingFire with
  | some ft => if ft ≤ now then fireTimer s ft else s
  | none => s

/-- A compile-triggering edit at time `now` replacing the watched state by
`(p, atts)`: the `watch([promptText, attachments])` handler clears
`isOutputStable` and calls the debounced function, which cancels any armed
timer (`clearTimeout`) and arms a new one 500 units ahead (`setTimeout`). -/
def applyEditAt (s : DebounceState) (now : Nat) (p : String) (atts : List Attachment) :
    DebounceState :=
  let s₁ := runDueTimer s now
  let s₂ := { s₁ with promptText := p, attachments := atts }
  { s₂ with isOutputStable := false, pendingFire := some (now + 500) }

/-- Let the armed timer (if any) fire at its scheduled time with no further
edits arriving: the pipeline settles. -/
def settle (s : DebounceState) : DebounceState :=
  match s.pendingFire with
  | some ft => fireTimer s ft
  | none => s

/-- Run a timeline of edits (time, prompt, attachments) from the initial
pipeline state, without letting the last armed timer fire. -/
def editsFold (edits : List (Nat × String × List Attachment)) : DebounceState :=
  edits.foldl (fun s e => applyEditAt s e.1 e.2.1 e.2.2) initDebounce

/-- Run a timeline of edits from the initial state and then let the pipeline
settle. -/
def runEdits (edits : List (Nat × String × List Attachment)) : DebounceState :=
  settle (editsFold edits)

/-- `copyToClipboard` of `App.vue`: refuse (`return`, writing nothing) while
the output is unstable, otherwise write the settled debounced markdown to the
clipboard.  The clipboard write is modelled as the returned value. -/
def copyToClipboard (s : DebounceState) : Option String :=
  if s.isOutputStable then some s.debouncedOutputMarkdown else none

/-! ### Reordering (`drop` handler) -/

/-- JavaScript `splice(i, 1)`: remove the element at index `i` (clamping like
`Array.prototype.splice`). -/
def eraseIdxJS (l : List α) (i : Nat) : List α := l.take i ++ l.drop (i + 1)

/-- JavaScript `splice(i, 0, x)`: insert `x` at index `i` (clamping like
`Array.prototype.splice`). -/
def insertIdxJS (l : List α) (i : Nat) (x : α) : List α := l.take i ++ x :: l.drop i

/-- The reordering performed by the `drop` handler of `App.vue` when a drag is
in progress (`draggedItem = some draggedId`, `draggedOverItem = some targetId`):
two `findIndex` calls, then `splice(draggedIndex, 1)` followed by
`splice(dropIndex, 0, movedItem)`.  The `none` fallback of the inner match is
unreachable: `findIndexJS` only returns indices inside the list. -/
def dropReorder (atts : List Attachment) (draggedId targetId : String) : List Attachment :=
  match findIndexJS (fun a => a.id == draggedId) atts,
        findIndexJS (fun a => a.id == targetId) atts with
  | some di, some ti =>
      match atts[di]? with
      | some moved => insertIdxJS (eraseIdxJS atts di) ti moved
      | none => atts
  | _, _ => atts

/-- Reordering as the specification words it: remove the attachment carrying
`draggedId` and reinsert it at the position currently occupied by `targetId`
(before the element shifted into that index); no-op when either id is missing
or the two are equal.  Stated from the spec, to be compared with
`dropReorder`. -/
def reorderSpec (atts : List Attachment) (draggedId targetId : String) : List Attachment :=
  if draggedId = targetId then atts
  else
    match atts.find? (fun a => a.id == draggedId),
          findIndexJS (fun a => a.id == targetId) atts with
    | some dragged, some ti =>
        insertIdxJS (atts.filter (fun a => a.id != draggedId)) ti dragged
    | _, _ => atts

/-! ### Serializer (`saveToXML`) -/

/-- The XML fragment `saveToXML` appends for one attachment (the template
literal with its two interpolations split at the interpolation points). -/
def attachmentXML (a : Attachment) : String :=
  "    <attachment>\n" ++
  "      <name><![CDATA[" ++ a.name ++ "]]></name>\n" ++
  "      <content><![CDATA[" ++ a.content ++ "]]></content>\n" ++
  "    </attachment>\n"

/-- The `xmlContent` string built by `saveToXML` of `App.vue` (the surrounding
Blob/download plumbing is browser I/O and out of scope): prolog, root element,
the prompt in a CDATA section, and — only when attachments exist — an
`attachments` collection with one record per attachment in sequence order. -/
def saveToXML (promptText : String) (attachments : List Attachment) : String :=
  let xml₁ := "<?xml version=\"1.0\" encoding=\"UTF-8\"?>\n" ++ "<promptBuilder>\n"
  let xml₂ := xml₁ ++ "  <prompt><![CDATA[" ++ promptText ++ "]]></prompt>\n"
  let xml₃ :=
    if attachments.length > 0 then
      xml₂ ++ "  <attachments>\n" ++
        String.join (attachments.map attachmentXML) ++ "  </attachments>\n"
    else xml₂
  xml₃ ++ "</promptBuilder>"

/-! ### Deserializer (`openFromXML`)

`openFromXML` feeds the file text to the browser `DOMParser` and then walks the
resulting DOM with `querySelector` / `querySelectorAll` / `textContent`.
`DOMParser` is an external capability, not code of this repository; it is
modelled here, per the DOM standard, for the XML dialect `saveToXML` emits
(prolog, attribute-free elements, whitespace between elements, CDATA sections):
a recursive-descent parser that yields the prompt text and the (name, content)
records, and `none` on any input it cannot parse.  Per the standard,
`parseFromString` never throws on malformed input — it returns a document
holding only a `parsererror` element, in which the selectors find nothing. -/

/-- Does the list start with the CDATA terminator `]]>`? -/
def startsWithCdataEnd (l : List Char) : Bool :=
  l.take 3 == [']', ']', '>']

/-- Does the CDATA terminator `]]>` occur anywhere in the list?  XML forbids it
both inside a CDATA section and in character data. -/
def containsCdataEnd : List Char → Bool
  | [] => false
  | c :: cs => startsWithCdataEnd (c :: cs) || containsCdataEnd cs

/-- Characters admitted by the XML 1.0 `Char` production; a real XML parser
rejects a document containing anything else, even inside CDATA. -/
def xmlValidChar (c : Char) : Bool :=
  c = '\t' || c = '\n' || c = '\r' ||
  (0x20 ≤ c.toNat && c.toNat ≤ 0xD7FF) ||
  (0xE000 ≤ c.toNat && c.toNat ≤ 0xFFFD) ||
  (0x10000 ≤ c.toNat && c.toNat ≤ 0x10FFFF)

/-- Split the input at the first occurrence of the CDATA terminator `]]>`:
returns the content before it and the remainder after it, or `none` when the
terminator never occurs. -/
def splitCdata : List Char → Option (List Char × List Char)
  | [] => none
  | c :: cs =>
    if startsWithCdataEnd (c :: cs) then some ([], (c :: cs).drop 3)
    else (splitCdata cs).map (fun pr => (c :: pr.1, pr.2))

/-- Consume the expected literal `lit` from the front of the input, returning
the remainder, or `none` on a mismatch. -/
def dropLit : List Char → List Char → Option (List Char)
  | [], input => some input
  | _ :: _, [] => none
  | c :: cs, d :: ds => if d = c then dropLit cs ds else none

/-- Drop leading XML whitespace (inter-element text made of spaces, tabs,
carriage returns and newlines). -/
def skipWs : List Char → List Char
  | [] => []
  | c :: cs => if c.isWhitespace then skipWs cs else c :: cs

/-- Parse `<tag><![CDATA[` content `]]></tag>`, the shape `saveToXML` emits for
the `prompt`, `name` and `content` fields; the CDATA payload must consist of
XML-valid characters.  Returns the payload (the element's `textContent`) and
the remaining input. -/
def parseCdataElem (tag : List Char) (input : List Char) : Option (List Char × List Char) :=
  match dropLit ('<' :: tag ++ ['>']) input with
  | none => none
  | some i =>
    match dropLit "<![CDATA[".data i with
    | none => none
    | some i =>
      match splitCdata i with
      | none => none
      | some (content, i) =>
        if content.all xmlValidChar then
          match dropLit ('<' :: '/' :: tag ++ ['>']) i with
          | none => none
          | some i => some (content, i)
        else none

/-- Parse one `<attachment>` record: a `name` field and a `content` field, each
a CDATA element, separated by inter-element whitespace. -/
def parseOneAttachment (input : List Char) :
    Option ((List Char × List Char) × List Char) :=
  match dropLit "<attachment>".data input with
  | none => none
  | some i =>
    match parseCdataElem "name".data (skipWs i) with
    | none => none
    | some (n, i) =>
      match parseCdataElem "content".data (skipWs i) with
      | none => none
      | some (c, i) =>
        match dropLit "</attachment>".data (skipWs i) with
        | none => none
        | some i => some ((n, c), i)

/-- Parse a sequence of `<attachment>` records (possibly none), stopping at the
first position where no record starts.  `fuel` bounds the recursion; callers
pass at least the input length plus one, which is always sufficient because
each record consumes input. -/
def parseAtts : Nat → List Char → Option (List (List Char × List Char) × List Char)
  | 0, _ => none
  | fuel + 1, input =>
    match parseOneAttachment input with
    | none => some ([], input)
    | some (rec, rest) =>
        match parseAtts fuel (skipWs rest) with
        | some (recs, rest') => some (rec :: recs, rest')
        | none => none

/-- Parse the serialized document: optional prolog, the `promptBuilder` root,
the mandatory `prompt` field and an optional `attachments` collection.  The
result is (prompt text, attachment records); `none` models the `parsererror`
document of a failed `DOMParser.parseFromString`. -/
def parsePromptBuilder (input : List Char) :
    Option (List Char × List (List Char × List Char)) :=
  let i₀ :=
    match dropLit "<?xml version=\"1.0\" encoding=\"UTF-8\"?>".data input with
    | some r => r
    | none => input
  match dropLit "<promptBuilder>".data (skipWs i₀) with
  | none => none
  | some i =>
    match parseCdataElem "prompt".data (skipWs i) with
    | none => none
    | some (p, i) =>
      match dropLit "<attachments>".data (skipWs i) with
      | some j =>
          (match parseAtts (j.length + 1) (skipWs j) with
          | none => none
          | some (recs, j) =>
            match dropLit "</attachments>".data j with
            | none => none
            | some j =>
              match dropLit "</promptBuilder>".data (skipWs j) with
              | none => none
              | some j => if skipWs j = [] then some (p, recs) else none)
      | none =>
          match dropLit "</promptBuilder>".data (skipWs i) with
          | none => none
          | some i => if skipWs i = [] then some (p, []) else none

/-- String-level wrapper of the DOM parsing and selector walk: the prompt
element's `textContent` and, for every `attachment` element, the `textContent`
of its `name` and `content` children. -/
def parseDoc (xmlText : String) : Option (String × List (String × String)) :=
  (parsePromptBuilder xmlText.data).map
    (fun pr => (String.mk pr.1, pr.2.map (fun rc => (String.mk rc.1, String.mk rc.2))))

/-- The loop pushing one parsed record as a new attachment: a freshly generated
id (`Date.now()` plus a random suffix in the source, here the generator `mkId`
applied to the record's position), the name defaulted to `Untitled` when empty
(`textContent || 'Untitled'`) and the content defaulted to the empty string. -/
def buildAtts : List (String × String) → (Nat → String) → Nat → List Attachment
  | [], _, _ => []
  | (n, c) :: rest, mkId, i =>
      ⟨mkId i, if n = "" then "Untitled" else n, c⟩ :: buildAtts rest mkId (i + 1)

/-- `openFromXML` of `App.vue` from the `reader.onload` callback on (after the
1 MiB size gate): parse the text, set the prompt from the `prompt` element when
present, and only when at least one `attachment` element exists clear the
attachment list and refill it from the records.  The second component is the
message surfaced to the user; it is always `none` because nothing in the `try`
block throws — `DOMParser.parseFromString` reports failure through a
`parsererror` document, so the `catch` with its alert is never reached. -/
def openFromXML (st : AppState) (xmlText : String) (mkId : Nat → String) :
    AppState × Option String :=
  match parseDoc xmlText with
  | none => (st, none)
  | some (p, recs) =>
      let st₁ := { st with promptText := p }
      if recs.length > 0 then
        ({ st₁ with attachments := buildAtts recs mkId 0 }, none)
      else (st₁, none)

/-- Fields that survive the CDATA wrapping: no `]]>` inside, XML-valid chars. -/
def fieldOK (s : String) : Prop :=
  containsCdataEnd s.data = false ∧ s.data.all xmlValidChar = true

/-! ## Helper lemmas -/

theorem join_cons (s : String) (ss : List String) :
    String.join (s :: ss) = ss.foldl (· ++ ·) s := rfl

theorem foldl_string_append (ss : List String) :
    ∀ init : String, ss.foldl (· ++ ·) init = init ++ String.join ss := by
  induction ss with
  | nil => intro init; exact (String.append_empty init).symm
  | cons s ss ih =>
      intro init
      calc ss.foldl (· ++ ·) (init ++ s) = (init ++ s) ++ String.join ss := ih _
        _ = init ++ (s ++ String.join ss) := String.append_assoc ..
        _ = init ++ ss.foldl (· ++ ·) s := by rw [ih s]
        _ = init ++ String.join (s :: ss) := by rw [join_cons]

theorem foldl_sections (f : Attachment → String) (atts : List Attachment) :
    ∀ init : String,
      atts.foldl (fun out a => out ++ f a) init = init ++ String.join (atts.map f) := by
  induction atts with
  | nil => intro init; exact (String.append_empty init).symm
  | cons a l ih =>
      intro init
      calc l.foldl (fun out b => out ++ f b) (init ++ f a)
          = (init ++ f a) ++ String.join (l.map f) := ih _
        _ = init ++ (f a ++ String.join (l.map f)) := String.append_assoc ..
        _ = init ++ (l.map f).foldl (· ++ ·) (f a) := by rw [foldl_string_append]
        _ = init ++ String.join (f a :: l.map f) := by rw [join_cons]

theorem any_id_updateNameAt (l : List Attachment) (sid n : String) :
    ∀ i, (updateNameAt l i n).any (fun a => a.id == sid) = l.any (fun a => a.id == sid) := by
  induction l with
  | nil => intro i; rfl
  | cons a l ih =>
      intro i
      cases i with
      | zero => rfl
      | succ j =>
          simp only [updateNameAt, List.any_cons]
          rw [ih j]

theorem selectionOK_extend (st : AppState) (l : List Attachment)
    (h : selectionOK st = true) :
    selectionOK { st with attachments := st.attachments ++ l } = true := by
  unfold selectionOK at h ⊢
  cases hsel : st.selectedAttachmentId with
  | none => simp
  | some sid =>
      rw [hsel] at h
      simp only [Option.all_some] at h ⊢
      simp [List.any_append, h]

theorem selectionOK_selectAttachment (st : AppState) (id : String)
    (h : selectionOK st = true) :
    selectionOK (selectAttachment st id) = true := by
  unfold selectAttachment
  cases hf : st.attachments.find? (fun a => a.id == id) with
  | none => exact h
  | some a =>
      have hmem := List.mem_of_find?_eq_some hf
      have hp := List.find?_some hf
      simp only [selectionOK, Option.all_some]
      exact List.any_eq_true.mpr ⟨a, hmem, hp⟩

theorem selectionOK_deleteAttachment (st : AppState) (id : String)
    (h : selectionOK st = true) :
    selectionOK (deleteAttachment st id) = true := by
  unfold deleteAttachment
  by_cases hc : st.selectedAttachmentId = some id
  · rw [if_pos hc]; rfl
  · rw [if_neg hc]
    unfold selectionOK at h ⊢
    cases hsel : st.selectedAttachmentId with
    | none => simp
    | some sid =>
        rw [hsel] at h
        simp only [Option.all_some] at h ⊢
        rw [List.any_eq_true] at h ⊢
        obtain ⟨a, hmem, hid⟩ := h
        have hsid : a.id = sid := by simpa using hid
        have hne : sid ≠ id := fun he => hc (by rw [hsel, he])
        refine ⟨a, List.mem_filter.mpr ⟨hmem, ?_⟩, hid⟩
        simp [bne, hsid, hne]

theorem selectionOK_applyOp (st : AppState) (op : DocOp)
    (h : selectionOK st = true) : selectionOK (applyOp st op) = true := by
  cases op with
  | addEmpty id =>
      exact selectionOK_selectAttachment _ id (selectionOK_extend st _ h)
  | addPaste id text =>
      show selectionOK (addFromClipboard st id text) = true
      unfold addFromClipboard
      by_cases ht : text ≠ ""
      · rw [if_pos ht]; exact selectionOK_extend st _ h
      · rw [if_neg ht]; exact h
  | rename id newName =>
      show selectionOK (saveAttachmentName st id newName) = true
      unfold saveAttachmentName
      split
      · split
        · unfold selectionOK at h ⊢
          cases hsel : st.selectedAttachmentId with
          | none => simp
          | some sid =>
              rw [hsel] at h
              simp only [Option.all_some] at h ⊢
              rw [any_id_updateNameAt]
              exact h
        · exact h
      · exact h
  | select id => exact selectionOK_selectAttachment st id h
  | delete id => exact selectionOK_deleteAttachment st id h

theorem selectionOK_applyOps (ops : List DocOp) :
    ∀ st : AppState, selectionOK st = true → selectionOK (applyOps st ops) = true := by
  induction ops with
  | nil => intro st h; exact h
  | cons op ops ih => intro st h; exact ih _ (selectionOK_applyOp st op h)

theorem updateNameAt_map_idc (n : String) :
    ∀ (l : List Attachment) (i : Nat),
      (updateNameAt l i n).map (fun a => (a.id, a.content))
        = l.map (fun a => (a.id, a.content)) := by
  intro l
  induction l with
  | nil => intro i; rfl
  | cons a l ih =>
      intro i
      cases i with
      | zero => rfl
      | succ j =>
          simp only [updateNameAt, List.map_cons]
          rw [ih j]

theorem updateNameAt_map_name (n : String) :
    ∀ (l : List Attachment) (i : Nat),
      (updateNameAt l i n).map (fun a => a.name)
        = (l.map (fun a => a.name)).set i n := by
  intro l
  induction l with
  | nil => intro i; rfl
  | cons a l ih =>
      intro i
      cases i with
      | zero => rfl
      | succ j =>
          simp only [updateNameAt, List.map_cons, List.set_cons_succ]
          rw [ih j]

theorem findIndexJS_some_get (p : α → Bool) :
    ∀ (l : List α) (i : Nat), findIndexJS p l = some i →
      ∃ a, l[i]? = some a ∧ p a = true := by
  intro l
  induction l with
  | nil => intro i h; exact absurd h (by simp [findIndexJS])
  | cons a l ih =>
      intro i h
      unfold findIndexJS at h
      by_cases hp : p a
      · rw [if_pos hp] at h
        cases h
        refine ⟨a, List.getElem?_cons_zero, hp⟩
      · rw [if_neg hp] at h
        cases hj : findIndexJS p l with
        | none => rw [hj] at h; exact absurd h (by simp)
        | some j =>
            rw [hj] at h
            have hij : i = j + 1 := by simpa using h.symm
            subst hij
            obtain ⟨b, hb, hpb⟩ := ih j hj
            refine ⟨b, ?_, hpb⟩
            simp only [List.getElem?_cons_succ]
            exact hb

theorem find?_eq_bind_findIndexJS (p : α → Bool) :
    ∀ l : List α, l.find? p = (findIndexJS p l).bind (fun i => l[i]?) := by
  intro l
  induction l with
  | nil => rfl
  | cons a l ih =>
      unfold findIndexJS
      by_cases hp : p a
      · rw [if_pos hp, List.find?_cons_of_pos _ hp]; simp
      · rw [if_neg hp, List.find?_cons_of_neg _ hp, ih]
        cases hj : findIndexJS p l with
        | none => rfl
        | some j => simp

theorem insertIdxJS_eraseIdxJS_self (x : α) :
    ∀ (l : List α) (i : Nat), l[i]? = some x →
      insertIdxJS (eraseIdxJS l i) i x = l := by
  intro l
  induction l with
  | nil => intro i h; simp at h
  | cons a l ih =>
      intro i h
      cases i with
      | zero =>
          simp only [List.getElem?_cons_zero, Option.some.injEq] at h
          subst h
          rfl
      | succ j =>
          simp only [List.getElem?_cons_succ] at h
          show a :: insertIdxJS (eraseIdxJS l j) j x = a :: l
          rw [ih j h]

theorem eraseIdxJS_eq_filter (dId : String) :
    ∀ (l : List Attachment) (di : Nat) (d : Attachment),
      (l.map (fun a => a.id)).Nodup → l[di]? = some d → d.id = dId →
      eraseIdxJS l di = l.filter (fun a => a.id != dId) := by
  intro l
  induction l with
  | nil => intro di d _ h; simp at h
  | cons a l ih =>
      intro di d hnd h hid
      rw [List.map_cons, List.nodup_cons] at hnd
      obtain ⟨hna, hnd'⟩ := hnd
      cases di with
      | zero =>
          have had : a = d := by simpa using h
          subst had
          show l = List.filter (fun b => b.id != dId) (a :: l)
          rw [List.filter_cons, if_neg (by simp [hid])]
          refine (List.filter_eq_self.mpr ?_).symm
          intro b hb
          have hbne : b.id ≠ dId := by
            intro he
            apply hna
            have hab : a.id = b.id := by rw [hid, ← he]
            rw [hab]
            exact List.mem_map_of_mem _ hb
          simpa using hbne
      | succ j =>
          simp only [List.getElem?_cons_succ] at h
          have hd : d ∈ l := List.getElem?_mem h
          have hane : a.id ≠ dId := by
            intro he
            exact hna (by rw [he, ← hid]; exact List.mem_map_of_mem _ hd)
          show a :: eraseIdxJS l j = List.filter (fun b => b.id != dId) (a :: l)
          rw [List.filter_cons, if_pos (by simpa using hane)]
          rw [ih j d hnd' h hid]

theorem dropLit_append (l rest : List Char) : dropLit l (l ++ rest) = some rest := by
  induction l with
  | nil => rfl
  | cons c cs ih => simp [dropLit, ih]

theorem splitCdata_append (s : List Char) (rest : List Char)
    (h : containsCdataEnd s = false) :
    splitCdata (s ++ ']' :: ']' :: '>' :: rest) = some (s, rest) := by
  induction s with
  | nil => simp [splitCdata, startsWithCdataEnd]
  | cons c s' ih =>
      rw [containsCdataEnd] at h
      simp only [Bool.or_eq_false_iff] at h
      obtain ⟨h1, h2⟩ := h
      have hsw : startsWithCdataEnd (c :: (s' ++ ']' :: ']' :: '>' :: rest)) = false := by
        cases s' with
        | nil => simp_all [startsWithCdataEnd]
        | cons d s'' =>
            cases s'' with
            | nil => simp_all [startsWithCdataEnd]
            | cons e t => simp_all [startsWithCdataEnd]
      rw [List.cons_append, splitCdata, if_neg (by simp [hsw]), ih h2]
      rfl

theorem parseCdataElem_run (tag : List Char) (s rest : List Char)
    (hs : containsCdataEnd s = false) (hv : s.all xmlValidChar = true) :
    parseCdataElem tag
      (('<' :: tag ++ ['>']) ++ ("<![CDATA[".data ++ (s ++ (']' :: ']' :: '>' :: (('<' :: '/' :: tag ++ ['>']) ++ rest)))))
      = some (s, rest) := by
  unfold parseCdataElem
  simp only [dropLit_append, splitCdata_append _ _ hs, hv, if_true]


theorem parseOneAttachment_run (a : Attachment) (next : List Char)
    (h1 : containsCdataEnd a.name.data = false) (h2 : a.name.data.all xmlValidChar = true)
    (h3 : containsCdataEnd a.content.data = false) (h4 : a.content.data.all xmlValidChar = true) :
    parseOneAttachment (skipWs ('\n' :: ((attachmentXML a).data ++ next)))
      = some ((a.name.data, a.content.data), '\n' :: next) := by
  simp [parseOneAttachment, parseCdataElem, attachmentXML, dropLit, skipWs,
    splitCdata_append _ _ h1, splitCdata_append _ _ h3, h2, h4]


theorem join_cons_append (s : String) (ss : List String) :
    String.join (s :: ss) = s ++ String.join ss := by
  rw [join_cons, foldl_string_append]

theorem parseOneAttachment_fail (next : List Char) :
    parseOneAttachment ('<' :: '/' :: next) = none := by
  simp [parseOneAttachment, dropLit]

theorem parseAtts_run (atts : List Attachment) :
    ∀ (fuel : Nat) (next : List Char),
      atts.length + 1 ≤ fuel →
      (∀ a ∈ atts, containsCdataEnd a.name.data = false ∧ a.name.data.all xmlValidChar = true ∧
        containsCdataEnd a.content.data = false ∧ a.content.data.all xmlValidChar = true) →
      parseAtts fuel
          (skipWs ('\n' :: ((String.join (atts.map attachmentXML)).data
            ++ (' ' :: ' ' :: '<' :: '/' :: next))))
        = some (atts.map (fun a => (a.name.data, a.content.data)), '<' :: '/' :: next) := by
  induction atts with
  | nil =>
      intro fuel next hf _
      cases fuel with
      | zero => omega
      | succ f => simp [parseAtts, parseOneAttachment_fail, skipWs, String.join]
  | cons a atts ih =>
      intro fuel next hf hok
      cases fuel with
      | zero => omega
      | succ f =>
          obtain ⟨h1, h2, h3, h4⟩ := hok a (by simp)
          have htail : ∀ b ∈ atts, containsCdataEnd b.name.data = false
              ∧ b.name.data.all xmlValidChar = true
              ∧ containsCdataEnd b.content.data = false
              ∧ b.content.data.all xmlValidChar = true :=
            fun b hb => hok b (by simp [hb])
          rw [List.map_cons, join_cons_append, String.data_append, List.append_assoc]
          simp only [parseAtts, parseOneAttachment_run a _ h1 h2 h3 h4,
            ih f next (by simp only [List.length_cons] at hf; omega) htail, List.map_cons]


theorem attachmentXML_len (a : Attachment) : 1 ≤ (attachmentXML a).data.length := by
  simp [attachmentXML, String.data_append]

theorem join_map_len (atts : List Attachment) :
    atts.length ≤ (String.join (atts.map attachmentXML)).data.length := by
  induction atts with
  | nil => simp
  | cons a atts ih =>
      rw [List.map_cons, join_cons_append, String.data_append, List.length_append]
      have := attachmentXML_len a
      simp only [List.length_cons]
      omega

theorem parsePromptBuilder_saveToXML (p : String) (atts : List Attachment)
    (hp : fieldOK p)
    (hatts : ∀ a ∈ atts, fieldOK a.name ∧ fieldOK a.content) :
    parsePromptBuilder (saveToXML p atts).data
      = some (p.data, atts.map (fun a => (a.name.data, a.content.data))) := by
  obtain ⟨hp1, hp2⟩ := hp
  cases atts with
  | nil =>
      simp [saveToXML, parsePromptBuilder, parseCdataElem, dropLit, skipWs,
        splitCdata_append _ _ hp1, hp2]
  | cons a atts =>
      have hok : ∀ b ∈ a :: atts, containsCdataEnd b.name.data = false
          ∧ b.name.data.all xmlValidChar = true
          ∧ containsCdataEnd b.content.data = false
          ∧ b.content.data.all xmlValidChar = true := by
        intro b hb
        obtain ⟨⟨n1, n2⟩, ⟨c1, c2⟩⟩ := hatts b hb
        exact ⟨n1, n2, c1, c2⟩
      have hrun := parseAtts_run (a :: atts)
        (('\n' :: ((String.join ((a :: atts).map attachmentXML)).data
          ++ (' ' :: ' ' :: '<' :: '/' :: "attachments>".data ++ '\n' :: "</promptBuilder>".data))).length + 1)
        ("attachments>".data ++ '\n' :: "</promptBuilder>".data)
        (by
          have hjl := join_map_len (a :: atts)
          simp only [List.length_cons, List.length_append] at hjl ⊢
          omega) hok
      simp [saveToXML, parsePromptBuilder, parseCdataElem, dropLit, skipWs,
        splitCdata_append _ _ hp1, hp2] at hrun ⊢
      rw [hrun]
      simp [dropLit, skipWs]


theorem parseDoc_saveToXML (p : String) (atts : List Attachment)
    (hp : fieldOK p)
    (hatts : ∀ a ∈ atts, fieldOK a.name ∧ fieldOK a.content) :
    parseDoc (saveToXML p atts) = some (p, atts.map (fun a => (a.name, a.content))) := by
  unfold parseDoc
  rw [parsePromptBuilder_saveToXML p atts hp hatts]
  simp [List.map_map]

theorem buildAtts_spec (mkId : Nat → String) :
    ∀ (recs : List (String × String)) (k : Nat),
      (∀ r ∈ recs, r.1 ≠ "") →
      (buildAtts recs mkId k).map (fun a => (a.name, a.content)) = recs
      ∧ (buildAtts recs mkId k).map (fun a => a.id)
          = (List.range' k recs.length).map mkId := by
  intro recs
  induction recs with
  | nil => intro k _; exact ⟨rfl, rfl⟩
  | cons r recs ih =>
      intro k hne
      obtain ⟨ih1, ih2⟩ := ih (k + 1) (fun b hb => hne b (by simp [hb]))
      constructor
      · simp only [buildAtts, List.map_cons, ih1]
        rw [if_neg (hne r (by simp))]
      · simp only [buildAtts, List.map_cons, ih2, List.length_cons, List.range']

/-! ## Claim theorems -/

/-- C3: for every sequence of add, rename, select and delete commands applied
to the initially empty document, `selectedAttachmentId` is either null or the
id of an attachment currently present in the sequence. -/
theorem selection_invariant (ops : List DocOp) :
    selectionOK (applyOps initialState ops) = true :=
  selectionOK_applyOps ops initialState rfl

/-- C4: with debounce interval 500, compile-triggering edits at times `t`,
`t + 100` and `t + 200` and no further edits produce exactly one recompute of
the debounced output, it fires at `t + 700`, and it compiles the state as it
stood at `t + 200` — earlier intermediate states are never compiled. -/
theorem debounce_single_recompute (t : Nat) (p₁ p₂ p₃ : String)
    (a₁ a₂ a₃ : List Attachment) :
    (runEdits [(t, p₁, a₁), (t + 100, p₂, a₂), (t + 200, p₃, a₃)]).recomputes
      = [(t + 700, outputMarkdown p₃ a₃)] := by
  have h₁ : ¬ (t + 500 ≤ t + 100) := by omega
  have h₂ : ¬ (t + 100 + 500 ≤ t + 200) := by omega
  simp [runEdits, editsFold, applyEditAt, runDueTimer, settle, fireTimer, initDebounce,
    h₁, h₂, Nat.add_assoc]

/-- C5: after any nonempty edit timeline the recompute armed by the last edit
is still pending, the output is unstable and the copy command is refused
(writes nothing to the clipboard); once that pending recompute settles, the
copy proceeds and transfers exactly the settled debounced compiled string of
the last edited state. -/
theorem copy_refused_until_settled (pre : List (Nat × String × List Attachment))
    (τ : Nat) (p : String) (atts : List Attachment) :
    (editsFold (pre ++ [(τ, p, atts)])).pendingFire.isSome = true
    ∧ (editsFold (pre ++ [(τ, p, atts)])).isOutputStable = false
    ∧ copyToClipboard (editsFold (pre ++ [(τ, p, atts)])) = none
    ∧ (runEdits (pre ++ [(τ, p, atts)])).isOutputStable = true
    ∧ copyToClipboard (runEdits (pre ++ [(τ, p, atts)])) = some (outputMarkdown p atts) := by
  unfold runEdits editsFold
  rw [List.foldl_append]
  simp [applyEditAt, runDueTimer, settle, fireTimer, copyToClipboard]

/-- C6: for every attachment sequence with distinct ids, the `drop` handler's
reordering agrees with the spec's description — remove the dragged attachment
and reinsert it at the position occupied by the target (before the shifted
element at that index), with a no-op when either id is absent or the two ids
are equal. -/
theorem dropReorder_eq_reorderSpec (atts : List Attachment) (draggedId targetId : String)
    (hnd : (atts.map (fun a => a.id)).Nodup) :
    dropReorder atts draggedId targetId = reorderSpec atts draggedId targetId := by
  cases hd : findIndexJS (fun a => a.id == draggedId) atts with
  | none =>
      have hfind : atts.find? (fun a => a.id == draggedId) = none := by
        rw [find?_eq_bind_findIndexJS, hd]
        rfl
      cases ht : findIndexJS (fun a => a.id == targetId) atts with
      | none => simp [dropReorder, reorderSpec, hd, ht, hfind]
      | some ti => simp [dropReorder, reorderSpec, hd, ht, hfind]
  | some di =>
      obtain ⟨moved, hmv, hmp⟩ := findIndexJS_some_get _ atts di hd
      have hfind : atts.find? (fun a => a.id == draggedId) = some moved := by
        rw [find?_eq_bind_findIndexJS, hd]
        simpa using hmv
      cases ht : findIndexJS (fun a => a.id == targetId) atts with
      | none => simp [dropReorder, reorderSpec, hd, ht, hfind]
      | some ti =>
          by_cases heq : draggedId = targetId
          · subst heq
            rw [hd] at ht
            injection ht with hti
            subst hti
            simp only [dropReorder, reorderSpec, hd, hmv, if_pos rfl]
            exact insertIdxJS_eraseIdxJS_self moved atts di hmv
          · have hmid : moved.id = draggedId := by simpa using hmp
            simp only [dropReorder, reorderSpec, hd, ht, hfind, if_neg heq, hmv]
            rw [eraseIdxJS_eq_filter draggedId atts di moved hnd hmv hmid]

/-- Witness for C6: on the sequence `[A, B, C]` (ids distinct) dragging `C`
onto `A` yields `[C, A, B]`, and the handler agrees with the spec there. -/
theorem dropReorder_eq_reorderSpec_witness :
    dropReorder [⟨"a", "A", "1"⟩, ⟨"b", "B", "2"⟩, ⟨"c", "C", "3"⟩] "c" "a"
        = [⟨"c", "C", "3"⟩, ⟨"a", "A", "1"⟩, ⟨"b", "B", "2"⟩]
    ∧ dropReorder [⟨"a", "A", "1"⟩, ⟨"b", "B", "2"⟩, ⟨"c", "C", "3"⟩] "c" "a"
        = reorderSpec [⟨"a", "A", "1"⟩, ⟨"b", "B", "2"⟩, ⟨"c", "C", "3"⟩] "c" "a" :=
  ⟨by decide,
   dropReorder_eq_reorderSpec [⟨"a", "A", "1"⟩, ⟨"b", "B", "2"⟩, ⟨"c", "C", "3"⟩] "c" "a"
     (by decide)⟩

/-- C9 counterexample: the claim reads `saveAttachmentName` as replacing the
name by `newName`, but the source stores the trimmed name: renaming the
attachment named `A` with `" B "` yields the name `"B"`, not `" B "`. -/
theorem saveAttachmentName_not_verbatim :
    (saveAttachmentName { initialState with attachments := [⟨"1", "A", "c"⟩] }
        "1" " B ").attachments.map (fun a => a.name) = ["B"]
    ∧ (["B"] : List String) ≠ [" B "] := by
  constructor
  · decide
  · decide

/-- C9 (amended): for every state and every id/newName, renaming never touches
any attachment's id or content (nor the list order); when the trimmed newName
is empty the whole state is unchanged; and when the attachment is present and
the trimmed newName is non-empty, that attachment's name becomes the trimmed
newName. -/
theorem saveAttachmentName_amended (st : AppState) (id newName : String) :
    ((saveAttachmentName st id newName).attachments.map (fun a => (a.id, a.content))
        = st.attachments.map (fun a => (a.id, a.content)))
    ∧ (trimJS newName = "" → saveAttachmentName st id newName = st)
    ∧ (∀ i, findIndexJS (fun a => a.id == id) st.attachments = some i →
        trimJS newName ≠ "" →
        (saveAttachmentName st id newName).attachments.map (fun a => a.name)
          = (st.attachments.map (fun a => a.name)).set i (trimJS newName)) := by
  refine ⟨?_, ?_, ?_⟩
  · unfold saveAttachmentName
    cases hf : findIndexJS (fun a => a.id == id) st.attachments with
    | none => simp [hf]
    | some i =>
        by_cases ht : trimJS newName ≠ ""
        · simp only [hf, if_pos ht]
          exact updateNameAt_map_idc (trimJS newName) st.attachments i
        · simp [hf, ht]
  · intro ht
    unfold saveAttachmentName
    cases hf : findIndexJS (fun a => a.id == id) st.attachments with
    | none => simp [hf]
    | some i => simp [hf, ht]
  · intro i hf ht
    unfold saveAttachmentName
    simp only [hf, if_pos ht]
    exact updateNameAt_map_name (trimJS newName) st.attachments i

/-- Witness for C9 (amended): concrete instances — renaming with whitespace
only is a no-op, and renaming with `" B "` sets the name to `"B"` while ids
and contents stay intact. -/
theorem saveAttachmentName_amended_witness :
    saveAttachmentName { initialState with attachments := [⟨"1", "A", "c"⟩] } "1" "   "
        = { initialState with attachments := [⟨"1", "A", "c"⟩] }
    ∧ (saveAttachmentName { initialState with attachments := [⟨"1", "A", "c"⟩] }
        "1" " B ").attachments.map (fun a => a.name)
        = ([("A" : String)]).set 0 (trimJS " B ")
    ∧ (saveAttachmentName { initialState with attachments := [⟨"1", "A", "c"⟩] }
        "1" " B ").attachments.map (fun a => (a.id, a.content))
        = [(("1" : String), ("c" : String))] :=
  ⟨(saveAttachmentName_amended { initialState with attachments := [⟨"1", "A", "c"⟩] }
      "1" "   ").2.1 (by decide),
   (saveAttachmentName_amended { initialState with attachments := [⟨"1", "A", "c"⟩] }
      "1" " B ").2.2 0 (by decide) (by decide),
   (saveAttachmentName_amended { initialState with attachments := [⟨"1", "A", "c"⟩] }
      "1" " B ").1⟩

/-- C10: deleting an id carried by no current attachment leaves the entire
document unchanged — attachment sequence, selection, prompt text and the
editing refs — given the documented selection invariant (which holds in every
reachable state). -/
theorem deleteAttachment_absent_id (st : AppState) (id : String)
    (habs : st.attachments.all (fun a => a.id != id) = true)
    (hsel : selectionOK st = true) :
    deleteAttachment st id = st := by
  have hfilter : st.attachments.filter (fun a => a.id != id) = st.attachments :=
    List.filter_eq_self.mpr (fun a ha => List.all_eq_true.mp habs a ha)
  have hc : ¬ st.selectedAttachmentId = some id := by
    intro hcsel
    unfold selectionOK at hsel
    rw [hcsel] at hsel
    simp only [Option.all_some] at hsel
    rw [List.any_eq_true] at hsel
    obtain ⟨a, hmem, hid⟩ := hsel
    have hne := List.all_eq_true.mp habs a hmem
    simp only [bne_iff_ne, ne_eq] at hne
    exact hne (by simpa using hid)
  unfold deleteAttachment
  rw [if_neg hc, hfilter]

/-- Witness for C10: deleting the absent id `"2"` from a document holding only
the attachment with id `"1"` (which is selected) changes nothing. -/
theorem deleteAttachment_absent_id_witness :
    deleteAttachment
        { initialState with attachments := [⟨"1", "A", "x"⟩], selectedAttachmentId := some "1" }
        "2"
      = { initialState with attachments := [⟨"1", "A", "x"⟩], selectedAttachmentId := some "1" } :=
  deleteAttachment_absent_id
    { initialState with attachments := [⟨"1", "A", "x"⟩], selectedAttachmentId := some "1" }
    "2" (by decide) (by decide)

/-- C1: `compile(p, attachments)` equals `p` followed by exactly two newlines,
then for each attachment in list order the string
`"### " ++ name ++ "\n(fence)\n" ++ content ++ "\n(fence)\n\n"` (with
triple-backtick fences); in particular the spec's `Summarize:`/`doc1`/`hello`
example compiles to the stated string. -/
theorem outputMarkdown_eq_compileSpec :
    (∀ (p : String) (atts : List Attachment), outputMarkdown p atts = compileSpec p atts)
    ∧ outputMarkdown "Summarize:" [⟨"id1", "doc1", "hello"⟩]
        = "Summarize:\n\n### doc1\n```\nhello\n```\n\n" := by
  constructor
  · intro p atts
    cases atts with
    | nil => exact (String.append_empty (p ++ "\n\n")).symm
    | cons a l =>
        simp only [outputMarkdown, List.length_cons, gt_iff_lt, Nat.succ_pos, if_true]
        rw [foldl_sections (fun a => "### " ++ a.name ++ "\n```\n" ++ a.content ++ "\n```\n\n")
          (a :: l) (p ++ "\n\n")]
        rfl
  · decide

/-- C2 counterexample: the round trip does not preserve every (name, content)
pair — an attachment whose name is the empty string comes back named
`Untitled`, because `openFromXML` defaults a falsy `textContent` with
`|| 'Untitled'`. -/
theorem roundTrip_not_name_preserving :
    ((openFromXML initialState (saveToXML "p" [⟨"x", "", "c"⟩])
        (fun i => "n" ++ toString i)).1.attachments.map (fun a => (a.name, a.content)))
      = [("Untitled", "c")]
    ∧ ([(("Untitled" : String), ("c" : String))]
        ≠ [(("" : String), ("c" : String))]) := by
  constructor
  · decide
  · decide

/-- C2 (amended): starting from the attachment-free initial document, for every
document whose prompt, names and contents contain no `]]>` and only XML-valid
characters and whose names are non-empty, `deserialize(serialize(doc))`
restores the prompt text and the ordered (name, content) pairs, with every
loaded attachment receiving a freshly generated id from the supplied
generator. -/
theorem roundTrip_amended (p : String) (atts : List Attachment) (mkId : Nat → String)
    (hp : fieldOK p)
    (hatts : ∀ a ∈ atts, fieldOK a.name ∧ fieldOK a.content ∧ a.name ≠ "") :
    (openFromXML initialState (saveToXML p atts) mkId).1.promptText = p
    ∧ (openFromXML initialState (saveToXML p atts) mkId).1.attachments.map
        (fun a => (a.name, a.content)) = atts.map (fun a => (a.name, a.content))
    ∧ (openFromXML initialState (saveToXML p atts) mkId).1.attachments.map (fun a => a.id)
        = (List.range atts.length).map mkId := by
  have hpd := parseDoc_saveToXML p atts hp (fun a ha => ⟨(hatts a ha).1, (hatts a ha).2.1⟩)
  have hnames : ∀ r ∈ atts.map (fun a => (a.name, a.content)), r.1 ≠ "" := by
    intro r hr
    obtain ⟨a, ha, rfl⟩ := List.mem_map.mp hr
    exact (hatts a ha).2.2
  obtain ⟨hb1, hb2⟩ := buildAtts_spec mkId (atts.map (fun a => (a.name, a.content))) 0 hnames
  unfold openFromXML
  rw [hpd]
  cases atts with
  | nil => exact ⟨rfl, rfl, rfl⟩
  | cons a atts' =>
      simp only [List.map_cons, List.length_cons] at hb1 hb2 ⊢
      simp [hb1, hb2, List.range_eq_range']

/-- Witness for C2 (amended): a concrete document round-trips — prompt `Hi`
and one attachment `(doc1, hello)` come back intact, with the generated id. -/
theorem roundTrip_amended_witness :
    (openFromXML initialState (saveToXML "Hi" [⟨"old1", "doc1", "hello"⟩])
        (fun i => "n" ++ toString i)).1.promptText = "Hi"
    ∧ (openFromXML initialState (saveToXML "Hi" [⟨"old1", "doc1", "hello"⟩])
        (fun i => "n" ++ toString i)).1.attachments.map (fun a => (a.name, a.content))
        = ([⟨"old1", "doc1", "hello"⟩] : List Attachment).map (fun a => (a.name, a.content))
    ∧ (openFromXML initialState (saveToXML "Hi" [⟨"old1", "doc1", "hello"⟩])
        (fun i => "n" ++ toString i)).1.attachments.map (fun a => a.id)
        = (List.range ([⟨"old1", "doc1", "hello"⟩] : List Attachment).length).map
            (fun i => "n" ++ toString i) :=
  roundTrip_amended "Hi" [⟨"old1", "doc1", "hello"⟩] (fun i => "n" ++ toString i)
    (by constructor <;> decide)
    (by
      intro a ha
      simp only [List.mem_singleton] at ha
      subst ha
      refine ⟨⟨?_, ?_⟩, ⟨?_, ?_⟩, ?_⟩ <;> decide)

/-- C7: on malformed input (here a truncated document) the import leaves the
whole Document Model untouched — but no `ParseError` is surfaced either: the
`catch` that would alert never runs because `DOMParser.parseFromString` signals
failure through a `parsererror` document instead of throwing, so the operation
fails silently.  The claim's unchanged-model half holds; its surfaced-error
half is what the code fails to deliver. -/
theorem openFromXML_malformed_silent :
    openFromXML
        { initialState with
          promptText := "old", attachments := [⟨"1", "A", "c"⟩],
          selectedAttachmentId := some "1" }
        "<promptBuilder>" (fun i => "n" ++ toString i)
      = ({ initialState with
            promptText := "old", attachments := [⟨"1", "A", "c"⟩],
            selectedAttachmentId := some "1" }, none) := by
  decide

/-- C8 counterexample: importing a well-formed serialized document with no
attachment records does not empty the attachment sequence — the pre-import
attachment is retained, because `openFromXML` only clears the list inside
`if (attachmentElements.length > 0)`. -/
theorem openFromXML_no_records_retains :
    (openFromXML { initialState with promptText := "old", attachments := [⟨"1", "A", "c"⟩] }
        (saveToXML "hi" []) (fun i => "n" ++ toString i)).1.attachments
      = [⟨"1", "A", "c"⟩]
    ∧ ([(⟨"1", "A", "c"⟩ : Attachment)] : List Attachment) ≠ [] := by
  constructor
  · decide
  · decide

/-- C8 (amended): importing input that parses with no attachment records
replaces the prompt but leaves the attachment sequence (and everything else in
the state) exactly as it was — existing attachments are retained, not
discarded. -/
theorem openFromXML_no_records (st : AppState) (xmlText : String)
    (mkId : Nat → String) (p : String)
    (h : parseDoc xmlText = some (p, [])) :
    openFromXML st xmlText mkId = ({ st with promptText := p }, none) := by
  unfold openFromXML
  rw [h]
  simp

/-- Witness for C8 (amended): a concrete no-record import keeps the existing
attachment and swaps only the prompt. -/
theorem openFromXML_no_records_witness :
    openFromXML { initialState with attachments := [⟨"1", "A", "c"⟩] }
        (saveToXML "hi" []) (fun i => "n" ++ toString i)
      = ({ initialState with attachments := [⟨"1", "A", "c"⟩], promptText := "hi" }, none) :=
  openFromXML_no_records { initialState with attachments := [⟨"1", "A", "c"⟩] }
    (saveToXML "hi" []) (fun i => "n" ++ toString i) "hi" (by decide)

end PromptBuilder
